import Mathlib

/-!
Verification of the event-manager program (`src/event_manager.py`).

The program is a console CRUD loop over a flat list of events persisted to a
JSON file.  We embed the data model and the operations of `EventManager`
shallowly: the JSON file is modelled as `Option (List EventRecord)` (`none` is
a missing file, `some recs` is a file holding the JSON array `recs`), Python
`datetime` values as a `DateTime` record of calendar fields, and each manager
operation as a pure function on an explicit store state.
-/

namespace EventManagerModel

/-- Python `datetime.datetime`: calendar fields with their documented ranges
(`1 ≤ year ≤ 9999`, `1 ≤ month ≤ 12`, valid day of month, `hour < 24`,
`minute < 60`, `second < 60`, `microsecond < 10^6`). -/
structure DateTime where
  year : Nat
  month : Nat
  day : Nat
  hour : Nat
  minute : Nat
  second : Nat
  microsecond : Nat
deriving DecidableEq, Repr

/-- Gregorian leap-year rule, as used by `datetime`. -/
def isLeapYear (y : Nat) : Bool :=
  y % 4 == 0 && (y % 100 != 0 || y % 400 == 0)

/-- Number of days in a month of a given year (0 for an invalid month). -/
def daysInMonth (y m : Nat) : Nat :=
  match m with
  | 1 => 31
  | 2 => if isLeapYear y then 29 else 28
  | 3 => 31
  | 4 => 30
  | 5 => 31
  | 6 => 30
  | 7 => 31
  | 8 => 31
  | 9 => 30
  | 10 => 31
  | 11 => 30
  | 12 => 31
  | _ => 0

/-- The invariant every Python `datetime` object satisfies. -/
def ValidDateTime (dt : DateTime) : Prop :=
  1 ≤ dt.year ∧ dt.year ≤ 9999 ∧
  1 ≤ dt.month ∧ dt.month ≤ 12 ∧
  1 ≤ dt.day ∧ dt.day ≤ daysInMonth dt.year dt.month ∧
  dt.hour ≤ 23 ∧ dt.minute ≤ 59 ∧ dt.second ≤ 59 ∧ dt.microsecond ≤ 999999

instance (dt : DateTime) : Decidable (ValidDateTime dt) := by
  unfold ValidDateTime; infer_instance

/-- A `datetime` has minute precision when its sub-minute fields are zero. -/
def MinutePrecision (dt : DateTime) : Prop :=
  dt.second = 0 ∧ dt.microsecond = 0

instance (dt : DateTime) : Decidable (MinutePrecision dt) := by
  unfold MinutePrecision; infer_instance

/-- The decimal digit character for `d % 10`. -/
def digitChar (d : Nat) : Char := Char.ofNat (48 + d % 10)

/-- Zero-padded two-digit decimal rendering (`%02d`). -/
def pad2 (n : Nat) : List Char := [digitChar (n / 10), digitChar n]

/-- Zero-padded four-digit decimal rendering (`%04d`). -/
def pad4 (n : Nat) : List Char :=
  [digitChar (n / 1000), digitChar (n / 100), digitChar (n / 10), digitChar n]

/-- `datetime.strftime('%Y-%m-%d %H:%M')`: the fixed-format date string written
by `save_events` (the canonical `"YYYY-MM-DD HH:MM"` shape of the file). -/
def strftimeYmdHM (dt : DateTime) : String :=
  ⟨pad4 dt.year ++ '-' :: pad2 dt.month ++ '-' :: pad2 dt.day ++
    ' ' :: pad2 dt.hour ++ ':' :: pad2 dt.minute⟩

/-- Is `c` a decimal digit? -/
def isDig (c : Char) : Bool := 48 ≤ c.toNat && c.toNat ≤ 57

/-- Value of a digit character. -/
def digitVal (c : Char) : Nat := c.toNat - 48

/-- Numeric value of a two-digit field. -/
def val2 (a b : Char) : Nat := digitVal a * 10 + digitVal b

/-- Numeric value of a four-digit field. -/
def val4 (a b c d : Char) : Nat :=
  digitVal a * 1000 + digitVal b * 100 + digitVal c * 10 + digitVal d

/-- `datetime.strptime(s, '%Y-%m-%d %H:%M')`, modelled on the canonical
fixed-width form of the format: sixteen characters, four-digit year,
two-digit month, day, hour and minute, with the separators of the format
string, and the field-range validation `datetime` performs (returning `none`
where Python raises `ValueError`).  The parsed value has second and
microsecond zero, as `strptime` leaves unmatched fields at their defaults. -/
def strptimeYmdHM (s : String) : Option DateTime :=
  match s.data with
  | [y1, y2, y3, y4, c1, m1, m2, c2, d1, d2, c3, h1, h2, c4, n1, n2] =>
    if isDig y1 && isDig y2 && isDig y3 && isDig y4 &&
        isDig m1 && isDig m2 && isDig d1 && isDig d2 &&
        isDig h1 && isDig h2 && isDig n1 && isDig n2 &&
        (c1 == '-') && (c2 == '-') && (c3 == ' ') && (c4 == ':') then
      if 1 ≤ val4 y1 y2 y3 y4 ∧ 1 ≤ val2 m1 m2 ∧ val2 m1 m2 ≤ 12 ∧
          1 ≤ val2 d1 d2 ∧ val2 d1 d2 ≤ daysInMonth (val4 y1 y2 y3 y4) (val2 m1 m2) ∧
          val2 h1 h2 ≤ 23 ∧ val2 n1 n2 ≤ 59 then
        some ⟨val4 y1 y2 y3 y4, val2 m1 m2, val2 d1 d2, val2 h1 h2, val2 n1 n2, 0, 0⟩
      else
        none
    else
      none
  | _ => none

/-- Days in all years before year `y` (proleptic Gregorian, as
`datetime.toordinal`). -/
def daysBeforeYear (y : Nat) : Nat :=
  365 * (y - 1) + (y - 1) / 4 - (y - 1) / 100 + (y - 1) / 400

/-- Days in the months of year `y` strictly before month `m`. -/
def daysBeforeMonth (y m : Nat) : Nat :=
  (List.range (m - 1)).foldl (fun acc i => acc + daysInMonth y (i + 1)) 0

/-- `datetime.toordinal`-style day number of a date. -/
def toOrdinal (dt : DateTime) : Nat :=
  daysBeforeYear dt.year + daysBeforeMonth dt.year dt.month + (dt.day - 1)

/-- A `datetime` as a number of microseconds on the proleptic-Gregorian time
line; `datetime` comparison and subtraction coincide with comparison and
subtraction of this value. -/
def toMicro (dt : DateTime) : Nat :=
  (((toOrdinal dt * 24 + dt.hour) * 60 + dt.minute) * 60 + dt.second) * 1000000
    + dt.microsecond

/-- The `Event` entity: `title`, `date_time`, `tags`. -/
structure Event where
  title : String
  date_time : DateTime
  tags : List String
deriving DecidableEq, Repr

/-- `Event.__init__`: `self.tags = tags or []` — a `None` or empty (falsy)
`tags` argument is replaced by the empty list. -/
def Event.init (title : String) (date_time : DateTime)
    (tags : Option (List String)) : Event :=
  { title := title
    date_time := date_time
    tags := match tags with
            | none => []
            | some ts => if ts = [] then [] else ts }

/-- `Event.time_until_event` relative to an explicit `now`: the signed
difference `date_time - now`, in microseconds (a Python `timedelta`). -/
def time_until_event (e : Event) (now : DateTime) : Int :=
  (toMicro e.date_time : Int) - (toMicro now : Int)

/-- One element of the persisted JSON array:
`{"title": ..., "date_time": "YYYY-MM-DD HH:MM", "tags": [...]}`. -/
structure EventRecord where
  title : String
  date_time : String
  tags : List String
deriving DecidableEq, Repr

/-- `EventManager.event_decoder` followed by `Event(**event_data)`: converts
the record's date string with `strptime`; a malformed date string raises
(here: `Except.error`). -/
def decode_event (r : EventRecord) : Except String Event :=
  match strptimeYmdHM r.date_time with
  | some dt => .ok (Event.init r.title dt (some r.tags))
  | none => .error ("time data " ++ r.date_time ++ " does not match format")

/-- Decode the records of the file in order; the first failure propagates. -/
def load_records : List EventRecord → Except String (List Event)
  | [] => .ok []
  | r :: rest =>
    match decode_event r with
    | .ok e =>
      match load_records rest with
      | .ok es => .ok (e :: es)
      | .error msg => .error msg
    | .error msg => .error msg

/-- `EventManager.load_events`: a missing file (`FileNotFoundError`) yields
`[]`; otherwise every record of the JSON array is decoded, and any decoding
error propagates. -/
def load_events : Option (List EventRecord) → Except String (List Event)
  | none => .ok []
  | some recs => load_records recs

/-- `EventManager.save_events`: serialize every event, rendering `date_time`
with the fixed format. -/
def save_events (events : List Event) : List EventRecord :=
  events.map fun e => ⟨e.title, strftimeYmdHM e.date_time, e.tags⟩

/-- Python `str.split(',')` on the character list: splits at every comma,
never drops or trims characters, and always returns at least one part
(`''.split(',') == ['']`). -/
def splitComma : List Char → List (List Char)
  | [] => [[]]
  | c :: rest =>
    if c = ',' then
      [] :: splitComma rest
    else
      match splitComma rest with
      | [] => [[c]]
      | t :: ts => (c :: t) :: ts

/-- Python `s.split(',')` on strings: the tag-input parsing of `add_event`
and `edit_event`. -/
def pySplit (s : String) : List String := (splitComma s.data).map fun l => ⟨l⟩

/-- Concatenate parts back with commas: the left inverse of `splitComma`. -/
def joinComma : List (List Char) → List Char
  | [] => []
  | [t] => t
  | t :: ts => t ++ ',' :: joinComma ts

/-- Python `needle in hay` on strings: substring containment. -/
def pyIn (needle hay : String) : Bool := decide (needle.data <:+: hay.data)

/-- The manager's state: the in-memory `self.events` list plus the contents of
the file at `self.file_path` (`none` when no file exists). -/
structure EMState where
  events : List Event
  file : Option (List EventRecord)
deriving DecidableEq, Repr

/-- `EventManager.add_event` (after the view interaction and the re-prompt
loop have produced the title, a successfully parsed date and the raw tags
input): append `Event(title, date_time, tags_input.split(','))` and persist
the whole list. -/
def add_event (title : String) (date_time : DateTime) (tagsInput : String)
    (st : EMState) : EMState :=
  let events := st.events ++ [Event.init title date_time (some (pySplit tagsInput))]
  { events := events, file := some (save_events events) }

/-- `EventManager.search_event`: the (unchanged) state together with the
filtered results list. -/
def search_event (query : String) (st : EMState) : EMState × List Event :=
  (st, st.events.filter fun e => pyIn query e.title || e.tags.any fun t => pyIn query t)

/-- Replace the first event whose title is exactly `title` by `newEvent`;
`none` when no event matches. -/
def replaceFirstByTitle (title : String) (newEvent : Event) :
    List Event → Option (List Event)
  | [] => none
  | e :: rest =>
    if e.title = title then
      some (newEvent :: rest)
    else
      (replaceFirstByTitle title newEvent rest).map (e :: ·)

/-- `EventManager.edit_event` (with the view inputs as parameters): mutate the
first exact-title match in place — all three fields are overwritten, the tags
by `new_tags_input.split(',')` — and persist; on no match, report not-found
(`false`) and leave everything unchanged. -/
def edit_event (title newTitle : String) (newDateTime : DateTime)
    (newTagsInput : String) (st : EMState) : EMState × Bool :=
  match replaceFirstByTitle title ⟨newTitle, newDateTime, pySplit newTagsInput⟩ st.events with
  | some events => ({ events := events, file := some (save_events events) }, true)
  | none => (st, false)

/-- Remove the first event whose title is exactly `title` (`self.events.remove`
on the iterated element); `none` when no event matches. -/
def removeFirstByTitle (title : String) : List Event → Option (List Event)
  | [] => none
  | e :: rest =>
    if e.title = title then
      some rest
    else
      (removeFirstByTitle title rest).map (e :: ·)

/-- `EventManager.delete_event`: remove the first exact-title match and
persist; on no match, report not-found (`false`) and leave everything
unchanged. -/
def delete_event (title : String) (st : EMState) : EMState × Bool :=
  match removeFirstByTitle title st.events with
  | some events => ({ events := events, file := some (save_events events) }, true)
  | none => (st, false)

/-- `timedelta(days=7)` in microseconds. -/
def sevenDays : Int := 604800000000

/-- `EventManager.show_upcoming_events` with an explicit `now`: keep the
events with `time_until_event() <= timedelta(days=7)` and sort them ascending
by `date_time` (Python's `sorted` is a stable merge sort; `datetime` order is
the order of `toMicro`). -/
def show_upcoming_events (now : DateTime) (st : EMState) : EMState × List Event :=
  (st, (st.events.filter fun e => time_until_event e now ≤ sevenDays).mergeSort
    fun a b => toMicro a.date_time ≤ toMicro b.date_time)

/-- `EventManager.show_all_events`: display the list as it is. -/
def show_all_events (st : EMState) : EMState × List Event :=
  (st, st.events)

/-- The six top-level manager operations bound in the command table. -/
inductive TopOp where
  | add
  | search
  | edit
  | delete
  | upcoming
  | showAll
deriving DecidableEq, Repr

/-- Which operations carry the `@handle_error` decorator in the source:
`add_event`, `show_upcoming_events` and `show_all_events` do;
`search_event`, `edit_event` and `delete_event` do not. -/
def decoratedWithHandleError : TopOp → Bool
  | .add => true
  | .search => false
  | .edit => false
  | .delete => false
  | .upcoming => true
  | .showAll => true

/-- Modelled from the spec: the `handle_error` wrapper from the `common`
module (not under `src/`) "reports the error message and prevents the
exception from terminating the process".  Its result is the list of reported
error messages; the exception itself is swallowed. -/
def handle_error (body : Except String Unit) : List String :=
  match body with
  | .ok _ => []
  | .error msg => [msg]

/-- Run a top-level operation whose body may raise: operations carrying the
decorator have their exception caught and reported, the others let it
propagate.  The `ok` result carries the reported messages. -/
def runTopOp (op : TopOp) (body : Except String Unit) :
    Except String (List String) :=
  if decoratedWithHandleError op then
    .ok (handle_error body)
  else
    body.map fun _ => []

/-! ### Codec lemmas -/

theorem isDig_digitChar (n : Nat) : isDig (digitChar n) = true := by
  have h : n % 10 < 10 := Nat.mod_lt _ (by decide)
  unfold digitChar
  revert h
  generalize n % 10 = k
  intro h
  interval_cases k <;> decide

theorem digitVal_digitChar (n : Nat) : digitVal (digitChar n) = n % 10 := by
  have h : n % 10 < 10 := Nat.mod_lt _ (by decide)
  unfold digitChar
  revert h
  generalize n % 10 = k
  intro h
  interval_cases k <;> decide

theorem val2_pad (n : Nat) (h : n ≤ 99) :
    val2 (digitChar (n / 10)) (digitChar n) = n := by
  unfold val2
  rw [digitVal_digitChar, digitVal_digitChar]
  omega

theorem val4_pad (n : Nat) (h : n ≤ 9999) :
    val4 (digitChar (n / 1000)) (digitChar (n / 100)) (digitChar (n / 10))
      (digitChar n) = n := by
  unfold val4
  rw [digitVal_digitChar, digitVal_digitChar, digitVal_digitChar, digitVal_digitChar]
  omega

theorem daysInMonth_le (y m : Nat) : daysInMonth y m ≤ 31 := by
  unfold daysInMonth
  split <;> first | decide | (split <;> decide)

/-- Parsing a rendered valid `datetime` recovers it, truncated to minute
precision. -/
theorem strptime_strftime (dt : DateTime) (h : ValidDateTime dt) :
    strptimeYmdHM (strftimeYmdHM dt) = some { dt with second := 0, microsecond := 0 } := by
  obtain ⟨hy1, hy2, hm1, hm2, hd1, hd2, hh, hmi, _, _⟩ := h
  show strptimeYmdHM ⟨[digitChar (dt.year / 1000), digitChar (dt.year / 100),
      digitChar (dt.year / 10), digitChar dt.year, '-', digitChar (dt.month / 10),
      digitChar dt.month, '-', digitChar (dt.day / 10), digitChar dt.day, ' ',
      digitChar (dt.hour / 10), digitChar dt.hour, ':', digitChar (dt.minute / 10),
      digitChar dt.minute]⟩ = _
  unfold strptimeYmdHM
  simp only [isDig_digitChar, beq_self_eq_true, Bool.and_self, Bool.true_and,
    Bool.and_true, if_true]
  rw [val4_pad _ hy2, val2_pad dt.month (by omega), val2_pad dt.day
    (le_trans hd2 (le_trans (daysInMonth_le _ _) (by omega))),
    val2_pad dt.hour (by omega), val2_pad dt.minute (by omega)]
  rw [if_pos ⟨hy1, hm1, hm2, hd1, hd2, hh, hmi⟩]

/-- Decoding the saved record of a valid, minute-precision event recovers the
event. -/
theorem decode_encode (e : Event) (hv : ValidDateTime e.date_time)
    (hm : MinutePrecision e.date_time) :
    decode_event ⟨e.title, strftimeYmdHM e.date_time, e.tags⟩ = Except.ok e := by
  obtain ⟨t, dtv, tg⟩ := e
  obtain ⟨hs, hu⟩ := hm
  unfold decode_event
  simp only at hv hs hu ⊢
  rw [strptime_strftime dtv hv]
  obtain ⟨y, mo, d, hh, mi, s, u⟩ := dtv
  simp only at hs hu
  subst hs
  subst hu
  show Except.ok (Event.init t ⟨y, mo, d, hh, mi, 0, 0⟩ (some tg)) = _
  unfold Event.init
  cases tg with
  | nil => rfl
  | cons a l => simp

/-! ### Claim theorems -/

/-- C1: Round-trip persistence — for every list of events whose `date_time`s
have minute precision (and are genuine `datetime` values), `save_events`
followed by `load_events` on the same file reproduces the identical list of
events (same title, date_time and tags, same order). -/
theorem c1_round_trip (events : List Event)
    (h : ∀ e ∈ events, ValidDateTime e.date_time ∧ MinutePrecision e.date_time) :
    load_events (some (save_events events)) = Except.ok events := by
  show load_records (save_events events) = Except.ok events
  induction events with
  | nil => rfl
  | cons e rest ih =>
    have he := h e (List.mem_cons_self e rest)
    have hrest : load_records (save_events rest) = Except.ok rest :=
      ih fun x hx => h x (List.mem_cons_of_mem e hx)
    have hstep : load_records (save_events (e :: rest)) =
        match decode_event ⟨e.title, strftimeYmdHM e.date_time, e.tags⟩ with
        | .ok ev =>
          match load_records (save_events rest) with
          | .ok es => .ok (ev :: es)
          | .error msg => .error msg
        | .error msg => .error msg := rfl
    rw [hstep, decode_encode e he.1 he.2, hrest]

/-- Witness for C1 at a concrete store. -/
theorem c1_round_trip_witness :
    load_events (some (save_events [⟨"Standup", ⟨2099, 1, 1, 9, 0, 0, 0⟩, ["work"]⟩])) =
      Except.ok [⟨"Standup", ⟨2099, 1, 1, 9, 0, 0, 0⟩, ["work"]⟩] :=
  c1_round_trip [⟨"Standup", ⟨2099, 1, 1, 9, 0, 0, 0⟩, ["work"]⟩] (by decide)

/-- C2: `search_event` returns exactly the events for which the query is a
(case-sensitive) substring of the title or of at least one tag, in store
order (a sublist of the store), and every event not satisfying that
predicate is excluded. -/
theorem c2_search_exact (query : String) (st : EMState) :
    (search_event query st).2.Sublist st.events ∧
    ∀ e, e ∈ (search_event query st).2 ↔
      e ∈ st.events ∧
        (query.data <:+: e.title.data ∨ ∃ t ∈ e.tags, query.data <:+: t.data) := by
  constructor
  · exact List.filter_sublist st.events
  · intro e
    show e ∈ st.events.filter _ ↔ _
    rw [List.mem_filter]
    unfold pyIn
    simp [List.any_eq_true]

/-- Witness for C2: a concrete query matching an event through one of its
tags. -/
theorem c2_search_exact_witness :
    (⟨"Standup", ⟨2099, 1, 1, 9, 0, 0, 0⟩, ["work"]⟩ : Event) ∈
      (search_event "work" ⟨[⟨"Standup", ⟨2099, 1, 1, 9, 0, 0, 0⟩, ["work"]⟩], none⟩).2 :=
  ((c2_search_exact "work" ⟨[⟨"Standup", ⟨2099, 1, 1, 9, 0, 0, 0⟩, ["work"]⟩], none⟩).2
      ⟨"Standup", ⟨2099, 1, 1, 9, 0, 0, 0⟩, ["work"]⟩).mpr
    ⟨by decide, by decide⟩

/-- C10: the read-only operations `search_event`, `show_upcoming_events` and
`show_all_events` leave the store (both the in-memory list and the file)
exactly as it was. -/
theorem c10_readonly_frame (query : String) (now : DateTime) (st : EMState) :
    (search_event query st).1 = st ∧
    (show_upcoming_events now st).1 = st ∧
    (show_all_events st).1 = st :=
  ⟨rfl, rfl, rfl⟩

/-- C3: with a 7-day horizon, `show_upcoming_events` returns exactly the
events whose `date_time − now` is at most 7 days — in particular every event
already in the past — sorted ascending by `date_time`; events strictly more
than 7 days ahead are excluded. -/
theorem c3_upcoming_window (now : DateTime) (st : EMState) :
    (∀ e, e ∈ (show_upcoming_events now st).2 ↔
       e ∈ st.events ∧ time_until_event e now ≤ sevenDays) ∧
    (show_upcoming_events now st).2.Sorted
      (fun a b => toMicro a.date_time ≤ toMicro b.date_time) ∧
    (∀ e ∈ st.events, toMicro e.date_time ≤ toMicro now →
       e ∈ (show_upcoming_events now st).2) := by
  have hmem : ∀ e, e ∈ (show_upcoming_events now st).2 ↔
      e ∈ st.events ∧ time_until_event e now ≤ sevenDays := by
    intro e
    show e ∈ List.mergeSort _ _ ↔ _
    rw [List.mem_mergeSort, List.mem_filter]
    simp
  refine ⟨hmem, ?_, ?_⟩
  · have htrans : ∀ a b c : Event,
        decide (toMicro a.date_time ≤ toMicro b.date_time) = true →
        decide (toMicro b.date_time ≤ toMicro c.date_time) = true →
        decide (toMicro a.date_time ≤ toMicro c.date_time) = true := by
      intro a b c hab hbc
      simp only [decide_eq_true_eq] at *
      omega
    have htotal : ∀ a b : Event,
        (decide (toMicro a.date_time ≤ toMicro b.date_time) ||
          decide (toMicro b.date_time ≤ toMicro a.date_time)) = true := by
      intro a b
      simp only [Bool.or_eq_true, decide_eq_true_eq]
      omega
    have hp := List.sorted_mergeSort htrans htotal
      (st.events.filter fun e => time_until_event e now ≤ sevenDays)
    show List.Pairwise _ _
    exact List.Pairwise.imp (fun h => by simpa using h) hp
  · intro e he hpast
    refine (hmem e).2 ⟨he, ?_⟩
    unfold time_until_event sevenDays
    omega

/-- Witness for C3: a past event is still listed as upcoming. -/
theorem c3_upcoming_window_witness :
    (⟨"Past", ⟨2099, 1, 1, 9, 0, 0, 0⟩, []⟩ : Event) ∈
      (show_upcoming_events ⟨2099, 1, 2, 0, 0, 0, 0⟩
        ⟨[⟨"Past", ⟨2099, 1, 1, 9, 0, 0, 0⟩, []⟩], none⟩).2 :=
  (c3_upcoming_window ⟨2099, 1, 2, 0, 0, 0, 0⟩
      ⟨[⟨"Past", ⟨2099, 1, 1, 9, 0, 0, 0⟩, []⟩], none⟩).2.2
    ⟨"Past", ⟨2099, 1, 1, 9, 0, 0, 0⟩, []⟩ (by decide) (by decide)

/-! ### First-match lemmas for edit and delete -/

theorem removeFirst_none (title : String) (l : List Event)
    (h : ∀ e ∈ l, e.title ≠ title) : removeFirstByTitle title l = none := by
  induction l with
  | nil => rfl
  | cons e rest ih =>
    unfold removeFirstByTitle
    rw [if_neg (h e (List.mem_cons_self e rest)),
      ih fun x hx => h x (List.mem_cons_of_mem e hx)]
    rfl

theorem removeFirst_first (title : String) (pre : List Event) (e : Event)
    (post : List Event) (hpre : ∀ x ∈ pre, x.title ≠ title)
    (he : e.title = title) :
    removeFirstByTitle title (pre ++ e :: post) = some (pre ++ post) := by
  induction pre with
  | nil =>
    show removeFirstByTitle title (e :: post) = _
    unfold removeFirstByTitle
    rw [if_pos he]
    rfl
  | cons a pr ih =>
    show removeFirstByTitle title (a :: (pr ++ e :: post)) = _
    unfold removeFirstByTitle
    rw [if_neg (hpre a (List.mem_cons_self a pr)),
      ih fun x hx => hpre x (List.mem_cons_of_mem a hx)]
    rfl

theorem replaceFirst_none (title : String) (newEvent : Event) (l : List Event)
    (h : ∀ e ∈ l, e.title ≠ title) :
    replaceFirstByTitle title newEvent l = none := by
  induction l with
  | nil => rfl
  | cons e rest ih =>
    unfold replaceFirstByTitle
    rw [if_neg (h e (List.mem_cons_self e rest)),
      ih fun x hx => h x (List.mem_cons_of_mem e hx)]
    rfl

theorem replaceFirst_first (title : String) (newEvent : Event)
    (pre : List Event) (e : Event) (post : List Event)
    (hpre : ∀ x ∈ pre, x.title ≠ title) (he : e.title = title) :
    replaceFirstByTitle title newEvent (pre ++ e :: post) =
      some (pre ++ newEvent :: post) := by
  induction pre with
  | nil =>
    show replaceFirstByTitle title newEvent (e :: post) = _
    unfold replaceFirstByTitle
    rw [if_pos he]
    rfl
  | cons a pr ih =>
    show replaceFirstByTitle title newEvent (a :: (pr ++ e :: post)) = _
    unfold replaceFirstByTitle
    rw [if_neg (hpre a (List.mem_cons_self a pr)),
      ih fun x hx => hpre x (List.mem_cons_of_mem a hx)]
    rfl

/-- C4: when the store has an event with the given title, `delete_event`
removes exactly the first exact-title match, leaves all other events
unchanged, reports success and persists the reduced list; when no event
matches, it reports not-found and leaves the store unchanged. -/
theorem c4_delete_first_match (title : String) (st : EMState) :
    (∀ pre e post, st.events = pre ++ e :: post →
       (∀ x ∈ pre, x.title ≠ title) → e.title = title →
       delete_event title st =
         ({ events := pre ++ post, file := some (save_events (pre ++ post)) }, true)) ∧
    ((∀ e ∈ st.events, e.title ≠ title) → delete_event title st = (st, false)) := by
  constructor
  · intro pre e post hsplit hpre he
    unfold delete_event
    rw [hsplit, removeFirst_first title pre e post hpre he]
  · intro h
    unfold delete_event
    rw [removeFirst_none title st.events h]

/-- Witness for C4 at a concrete two-event store. -/
theorem c4_delete_first_match_witness :
    delete_event "A"
        ⟨[⟨"A", ⟨2099, 1, 1, 9, 0, 0, 0⟩, []⟩, ⟨"B", ⟨2099, 1, 2, 9, 0, 0, 0⟩, []⟩], none⟩ =
      ({ events := [⟨"B", ⟨2099, 1, 2, 9, 0, 0, 0⟩, []⟩],
         file := some (save_events [⟨"B", ⟨2099, 1, 2, 9, 0, 0, 0⟩, []⟩]) }, true) :=
  (c4_delete_first_match "A"
      ⟨[⟨"A", ⟨2099, 1, 1, 9, 0, 0, 0⟩, []⟩, ⟨"B", ⟨2099, 1, 2, 9, 0, 0, 0⟩, []⟩], none⟩).1
    [] ⟨"A", ⟨2099, 1, 1, 9, 0, 0, 0⟩, []⟩ [⟨"B", ⟨2099, 1, 2, 9, 0, 0, 0⟩, []⟩]
    rfl (by decide) rfl

/-- C5: `edit_event` on a title matching no event leaves the store (memory
and file) completely unchanged and reports not-found; when a match exists it
overwrites the fields of the first exact-title match — title, date_time, and
tags parsed from the comma-separated input — and persists. -/
theorem c5_edit_not_found (title newTitle : String) (newDateTime : DateTime)
    (newTagsInput : String) (st : EMState) :
    ((∀ e ∈ st.events, e.title ≠ title) →
       edit_event title newTitle newDateTime newTagsInput st = (st, false)) ∧
    (∀ pre e post, st.events = pre ++ e :: post →
       (∀ x ∈ pre, x.title ≠ title) → e.title = title →
       edit_event title newTitle newDateTime newTagsInput st =
         ({ events := pre ++ ⟨newTitle, newDateTime, pySplit newTagsInput⟩ :: post,
            file := some (save_events
              (pre ++ ⟨newTitle, newDateTime, pySplit newTagsInput⟩ :: post)) },
          true)) := by
  constructor
  · intro h
    unfold edit_event
    rw [replaceFirst_none title _ st.events h]
  · intro pre e post hsplit hpre he
    unfold edit_event
    rw [hsplit, replaceFirst_first title _ pre e post hpre he]

/-- Witness for C5: editing a nonexistent title leaves a concrete store
untouched. -/
theorem c5_edit_not_found_witness :
    edit_event "Z" "New" ⟨2099, 1, 1, 9, 0, 0, 0⟩ "a,b"
        ⟨[⟨"A", ⟨2099, 1, 1, 9, 0, 0, 0⟩, ["w"]⟩], none⟩ =
      (⟨[⟨"A", ⟨2099, 1, 1, 9, 0, 0, 0⟩, ["w"]⟩], none⟩, false) :=
  (c5_edit_not_found "Z" "New" ⟨2099, 1, 1, 9, 0, 0, 0⟩ "a,b"
      ⟨[⟨"A", ⟨2099, 1, 1, 9, 0, 0, 0⟩, ["w"]⟩], none⟩).1 (by decide)

/-- C6: loading from a missing file yields the empty event list without any
error, and that is the only caught load failure — a record whose date string
does not parse makes `load_events` propagate an error. -/
theorem c6_load_failure_boundary :
    load_events none = Except.ok [] ∧
    ∀ recs r, r ∈ recs → strptimeYmdHM r.date_time = none →
      ∃ msg, load_events (some recs) = Except.error msg := by
  refine ⟨rfl, ?_⟩
  intro recs r hr hbad
  induction recs with
  | nil => cases hr
  | cons a rest ih =>
    show ∃ msg, load_records (a :: rest) = Except.error msg
    cases hd : decode_event a with
    | error msg =>
      refine ⟨msg, ?_⟩
      unfold load_records
      rw [hd]
    | ok e =>
      rcases List.mem_cons.mp hr with heq | hmem
      · subst heq
        unfold decode_event at hd
        rw [hbad] at hd
        exact Except.noConfusion hd
      · obtain ⟨msg, hmsg⟩ := ih hmem
        have hmsg' : load_records rest = Except.error msg := hmsg
        refine ⟨msg, ?_⟩
        unfold load_records
        rw [hd, hmsg']

/-- Witness for C6: a missing file loads as `[]`, and a concrete malformed
date string makes the load fail. -/
theorem c6_load_failure_boundary_witness :
    load_events none = Except.ok [] ∧
    ∃ msg, load_events (some [⟨"X", "oops", []⟩]) = Except.error msg :=
  ⟨c6_load_failure_boundary.1,
    c6_load_failure_boundary.2 [⟨"X", "oops", []⟩] ⟨"X", "oops", []⟩
      (by decide) (by decide)⟩

/-- C7 counterexample: `search_event` carries no `@handle_error` decorator, so
an exception raised during it propagates instead of being caught — the claim
that every top-level operation is wrapped is false. -/
theorem c7_counterexample :
    runTopOp TopOp.search (Except.error "disk full") = Except.error "disk full" :=
  rfl

/-- C7 (amended): only `add_event`, `show_upcoming_events` and
`show_all_events` are wrapped by the `handle_error` decorator, which reports
the error message and swallows the exception; `search_event`, `edit_event`
and `delete_event` are not wrapped, so an exception raised during them
propagates. -/
theorem c7_wrapped_ops (msg : String) :
    runTopOp TopOp.add (Except.error msg) = Except.ok [msg] ∧
    runTopOp TopOp.upcoming (Except.error msg) = Except.ok [msg] ∧
    runTopOp TopOp.showAll (Except.error msg) = Except.ok [msg] ∧
    runTopOp TopOp.search (Except.error msg) = Except.error msg ∧
    runTopOp TopOp.edit (Except.error msg) = Except.error msg ∧
    runTopOp TopOp.delete (Except.error msg) = Except.error msg :=
  ⟨rfl, rfl, rfl, rfl, rfl, rfl⟩

/-- C8: every mutating operation ends by writing the full serialization of
the current in-memory list over the file: unconditionally for `add_event`,
and for `edit_event`/`delete_event` whenever the mutation succeeded. -/
theorem c8_full_rewrite_persistence :
    (∀ title dt tagsInput st, (add_event title dt tagsInput st).file =
       some (save_events (add_event title dt tagsInput st).events)) ∧
    (∀ t nt ndt nti st, (edit_event t nt ndt nti st).2 = true →
       (edit_event t nt ndt nti st).1.file =
         some (save_events (edit_event t nt ndt nti st).1.events)) ∧
    (∀ t st, (delete_event t st).2 = true →
       (delete_event t st).1.file =
         some (save_events (delete_event t st).1.events)) := by
  refine ⟨fun _ _ _ _ => rfl, ?_, ?_⟩
  · intro t nt ndt nti st h
    unfold edit_event at h ⊢
    cases hrep : replaceFirstByTitle t ⟨nt, ndt, pySplit nti⟩ st.events with
    | none => rw [hrep] at h; exact Bool.noConfusion h
    | some evts => rfl
  · intro t st h
    unfold delete_event at h ⊢
    cases hrem : removeFirstByTitle t st.events with
    | none => rw [hrem] at h; exact Bool.noConfusion h
    | some evts => rfl

/-- Witness for C8: a concrete add and a concrete successful delete both
leave the file holding exactly the serialized current store. -/
theorem c8_full_rewrite_persistence_witness :
    (add_event "T" ⟨2099, 1, 1, 9, 0, 0, 0⟩ "work" ⟨[], none⟩).file =
      some (save_events (add_event "T" ⟨2099, 1, 1, 9, 0, 0, 0⟩ "work" ⟨[], none⟩).events) ∧
    (delete_event "A" ⟨[⟨"A", ⟨2099, 1, 1, 9, 0, 0, 0⟩, []⟩], none⟩).1.file =
      some (save_events (delete_event "A" ⟨[⟨"A", ⟨2099, 1, 1, 9, 0, 0, 0⟩, []⟩], none⟩).1.events) :=
  ⟨c8_full_rewrite_persistence.1 "T" ⟨2099, 1, 1, 9, 0, 0, 0⟩ "work" ⟨[], none⟩,
    c8_full_rewrite_persistence.2.2 "A" ⟨[⟨"A", ⟨2099, 1, 1, 9, 0, 0, 0⟩, []⟩], none⟩
      (by decide)⟩

/-! ### Tag splitting lemmas -/

theorem splitComma_ne_nil (l : List Char) : splitComma l ≠ [] := by
  cases l with
  | nil => simp [splitComma]
  | cons c rest =>
    unfold splitComma
    split
    · simp
    · split <;> simp

theorem pySplit_ne_nil (s : String) : pySplit s ≠ [] := by
  unfold pySplit
  intro h
  exact splitComma_ne_nil s.data (List.map_eq_nil_iff.mp h)

theorem joinComma_splitComma (l : List Char) : joinComma (splitComma l) = l := by
  induction l with
  | nil => rfl
  | cons c rest ih =>
    unfold splitComma
    by_cases hc : c = ','
    · rw [if_pos hc]
      cases hr : splitComma rest with
      | nil => exact absurd hr (splitComma_ne_nil rest)
      | cons t ts =>
        rw [hr] at ih
        show ',' :: joinComma (t :: ts) = c :: rest
        rw [ih, hc]
    · rw [if_neg hc]
      cases hr : splitComma rest with
      | nil => exact absurd hr (splitComma_ne_nil rest)
      | cons t ts =>
        rw [hr] at ih
        cases ts with
        | nil =>
          show c :: t = c :: rest
          have ht : t = rest := ih
          rw [ht]
        | cons t2 ts2 =>
          show (c :: t) ++ ',' :: joinComma (t2 :: ts2) = c :: rest
          have ht : t ++ ',' :: joinComma (t2 :: ts2) = rest := ih
          rw [List.cons_append, ht]

/-- C9: the tags stored by `add_event` (and written by `edit_event`) are
exactly the raw input split on commas: the split never yields an empty list
(so the stored tags list is never `[]`), the empty input yields `[""]`, and
no characters are trimmed or dropped (joining the parts back with commas
recovers the input verbatim). -/
theorem c9_tags_are_raw_split :
    (∀ title dt s st, (add_event title dt s st).events =
       st.events ++ [⟨title, dt, pySplit s⟩]) ∧
    (∀ t nt ndt s st pre e post, st.events = pre ++ e :: post →
       (∀ x ∈ pre, x.title ≠ t) → e.title = t →
       (edit_event t nt ndt s st).1.events = pre ++ ⟨nt, ndt, pySplit s⟩ :: post) ∧
    (∀ s, pySplit s ≠ []) ∧
    pySplit "" = [""] ∧
    (∀ s : String, joinComma (splitComma s.data) = s.data) := by
  refine ⟨?_, ?_, pySplit_ne_nil, by decide, fun s => joinComma_splitComma s.data⟩
  · intro title dt s st
    unfold add_event
    simp only
    congr 1
    show [({ title := title, date_time := dt,
             tags := if pySplit s = [] then [] else pySplit s } : Event)] = _
    rw [if_neg (pySplit_ne_nil s)]
  · intro t nt ndt s st pre e post hsplit hpre he
    unfold edit_event
    rw [hsplit, replaceFirst_first t _ pre e post hpre he]

/-- Witness for C9 at concrete inputs: an empty tags input stores `[""]`, and
editing stores the comma-split parts verbatim. -/
theorem c9_tags_are_raw_split_witness :
    (add_event "T" ⟨2099, 1, 1, 9, 0, 0, 0⟩ "" ⟨[], none⟩).events =
      [] ++ [⟨"T", ⟨2099, 1, 1, 9, 0, 0, 0⟩, pySplit ""⟩] ∧
    (edit_event "A" "B" ⟨2099, 1, 1, 9, 0, 0, 0⟩ "x, y"
        ⟨[⟨"A", ⟨2099, 1, 1, 8, 0, 0, 0⟩, ["w"]⟩], none⟩).1.events =
      [] ++ ⟨"B", ⟨2099, 1, 1, 9, 0, 0, 0⟩, pySplit "x, y"⟩ :: [] :=
  ⟨c9_tags_are_raw_split.1 "T" ⟨2099, 1, 1, 9, 0, 0, 0⟩ "" ⟨[], none⟩,
    c9_tags_are_raw_split.2.1 "A" "B" ⟨2099, 1, 1, 9, 0, 0, 0⟩ "x, y"
      ⟨[⟨"A", ⟨2099, 1, 1, 8, 0, 0, 0⟩, ["w"]⟩], none⟩
      [] ⟨"A", ⟨2099, 1, 1, 8, 0, 0, 0⟩, ["w"]⟩ [] rfl (by decide) rfl⟩

end EventManagerModel
